import Mathlib

/-!
Verification of the mpdisplay repository core against its specification.

The development shallowly embeds, in Lean, the parts of the source the
claims depend on:

* `src/bus_drivers/i80bus.py` — the `I80Bus` class: lookup-table
  construction (`_setup_data_pins`), the viper hot write path (`_write`),
  the reference write path (`_write_slow`) and `tx_param`.
* `src/lib/mpdisplay/_sdl2display.py` and `_pgdisplay.py` — `blit_rect`,
  the `rotation` setter and the scroll-compositing branch of `_show`.

Machine integers are modelled as `Nat` with explicit masking where the
source relies on 32-bit registers.  Register writes performed through
`machine.mem32[...] = value` are modelled as a trace of events so that
ordering and elision properties can be stated.
-/

namespace I80

/-! ### Lookup-table construction (`I80Bus._setup_data_pins`) -/

/-- The Python `max(pins)` of the source (`max` of a pin list; on the 8-entry
lists used by the driver the list is never empty). -/
def maxPins (pins : List Nat) : Nat := pins.foldr max 0

/-- Number of lookup tables allocated by `_setup_data_pins`:
`len(range(0, max(pins), 32))`. -/
def numLuts (pins : List Nat) : Nat := (maxPins pins + 31) / 32

/-- The `lut_pins` of group `g`: the pins `p` with
`p >= start_pin and p < start_pin + 32` where `start_pin = 32*g`. -/
def lutPins (pins : List Nat) (g : Nat) : List Nat :=
  pins.filter (fun p => 32 * g ≤ p ∧ p < 32 * g + 32)

/-- The `pin_mask` of group `g`: `sum([1 << (p - start_pin) for p in lut_pins])`
(`0` when `lut_pins` is empty, as in the source). -/
def pinMask (pins : List Nat) (g : Nat) : Nat :=
  ((lutPins pins g).map (fun p => 2 ^ (p - 32 * g))).sum

/-- One step of the population loop of `_setup_data_pins` for a fixed byte
value `v` and group `g`: iterating `for bit_number, pin in enumerate(pins)`,
and when `index & (1 << bit_number)` is non-zero and the pin belongs to
table `pin // 32 == g`, OR-ing `1 << (pin % 32)` into the entry. -/
def lutEntryAux (g v : Nat) : List Nat → Nat → Nat → Nat
  | [], _, acc => acc
  | p :: rest, i, acc =>
      lutEntryAux g v rest (i + 1)
        (if v &&& (1 <<< i) ≠ 0 ∧ p / 32 = g then acc ||| (1 <<< (p % 32)) else acc)

/-- The 32-bit lookup-table entry for byte value `v` in group `g`, as
populated by the loop at the end of `_setup_data_pins`. -/
def lutEntry (pins : List Nat) (g v : Nat) : Nat := lutEntryAux g v pins 0 0

/-- The population loop of `_setup_data_pins` subscripts
`self._lookup_tables[pin // 32]` for every pin (every pin's bit occurs in
some index of `range(256)`), so it completes without an `IndexError` exactly
when every `pin // 32` is below the number of allocated tables.  This is that
guard. -/
def populateOk (pins : List Nat) : Bool :=
  pins.all (fun p => decide (p / 32 < numLuts pins))

/-- The `pin_data` packing loop at the end of `_setup_data_pins` runs
`addressof(self._lookup_tables[i])` for every allocated group
unconditionally, and an allocated group with a zero pin mask got `None`
instead of a table (`memoryview(...) if pin_mask else None`), on which
`addressof` raises.  This is that guard: every allocated group must have a
non-zero pin mask. -/
def packOk (pins : List Nat) : Bool :=
  (List.range (numLuts pins)).all (fun g => decide (pinMask pins g ≠ 0))

/-- Whole-construction guard of `_setup_data_pins`: the population loop
must stay within the allocated tables and the `pin_data` packing must find
a table (not `None`) in every allocated group. -/
def setupOk (pins : List Nat) : Bool := populateOk pins && packOk pins

/-- Applying a (set-mask, clear-mask) pair to a 32-bit port state: the set
register ORs the mask in, the clear register clears the mask's bits. -/
def applySetClr (x s c : Nat) : Nat := (x ||| s) &&& ((2 ^ 32 - 1) ^^^ c)

/-! ### Register-write traces (`tx_param`, `_write`, `_write_slow`) -/

/-- A data-pin register, as addressed through `pin_data` in `_write`:
per group the 32-bit-port set and clear registers, or the two 16-bit-port
set/reset half registers. -/
inductive Reg where
  | set (g : Nat)
  | clr (g : Nat)
  | sreset (g : Nat) (half : Nat)
deriving DecidableEq, Repr

/-- One observable effect of the driver: a control-line register write
(chip select, data/command, write strobe) or a data-pin register write with
its 32-bit value. -/
inductive Ev where
  | csA
  | csI
  | dcC
  | dcD
  | wrI
  | wrA
  | mem32 (r : Reg) (v : Nat)
deriving DecidableEq, Repr

/-- Bus configuration: the 8 data pins and
`gpio.pins_per_port == 32` (`_use_set_clr_regs`). -/
structure Cfg where
  pins : List Nat
  use32 : Bool
deriving DecidableEq, Repr

/-- The data-register writes of one non-elided byte in the viper `_write`:
for each table with a non-zero pin mask, `set_reg[0] = tx_value` and
`clr_reg[0] = tx_value ^ pin_mask` — the branch under `if True:` in the
source, taken for both port families; only the register addresses stored in
`pin_data` differ between families. -/
def dataWrites (cfg : Cfg) (val : Nat) : List Ev :=
  (List.range (numLuts cfg.pins)).flatMap fun n =>
    if pinMask cfg.pins n ≠ 0 then
      let tx := lutEntry cfg.pins n val
      if cfg.use32 then
        [Ev.mem32 (Reg.set n) tx, Ev.mem32 (Reg.clr n) (tx ^^^ pinMask cfg.pins n)]
      else
        [Ev.mem32 (Reg.sreset n 0) tx, Ev.mem32 (Reg.sreset n 1) (tx ^^^ pinMask cfg.pins n)]
    else []

/-- The data-register writes of one non-elided byte in `_write_slow`: the
32-bit-port family uses the separate set/clear registers, the 16-bit-port
family writes the combined set/reset words
`(tx & 0xFFFF) | ((tx ^ mask) << 16)` and
`(tx >> 16) | ((tx ^ mask) & 0xFFFF0000)`. -/
def slowDataWrites (cfg : Cfg) (val : Nat) : List Ev :=
  (List.range (numLuts cfg.pins)).flatMap fun n =>
    if pinMask cfg.pins n ≠ 0 then
      let tx := lutEntry cfg.pins n val
      let m := pinMask cfg.pins n
      if cfg.use32 then
        [Ev.mem32 (Reg.set n) tx, Ev.mem32 (Reg.clr n) (tx ^^^ m)]
      else
        [Ev.mem32 (Reg.sreset n 0) ((tx &&& 0xFFFF) ||| ((tx ^^^ m) <<< 16)),
         Ev.mem32 (Reg.sreset n 1) ((tx >>> 16) ||| ((tx ^^^ m) &&& 0xFFFF0000))]
    else []

/-- The byte loop of the viper `_write`: per byte, WR inactive, then (only
when `val != last`) the data-register writes, then WR active.  `last` is the
viper local, an `int` compared against the byte. -/
def hotWriteAux (cfg : Cfg) : List Nat → Int → List Ev
  | [], _ => []
  | val :: rest, last =>
      (Ev.wrI :: (if (val : Int) ≠ last then dataWrites cfg val else []) ++ [Ev.wrA])
        ++ hotWriteAux cfg rest (if (val : Int) ≠ last then (val : Int) else last)

/-- The viper `_write` on a byte buffer: its `last` local is initialized to
`-1` on every call, so no elision state survives between calls. -/
def hotWrite (cfg : Cfg) (data : List Nat) : List Ev := hotWriteAux cfg data (-1)

/-- The byte loop of `_write_slow`, threading the persistent `self._last`
(`None` after construction, hence `Option Nat`); returns the event trace and
the updated `self._last`. -/
def slowWriteAux (cfg : Cfg) : List Nat → Option Nat → List Ev × Option Nat
  | [], last => ([], last)
  | val :: rest, last =>
      let write := some val ≠ last
      let tr := Ev.wrI :: (if write then slowDataWrites cfg val else []) ++ [Ev.wrA]
      let next := slowWriteAux cfg rest (if write then some val else last)
      (tr ++ next.1, next.2)

/-- The value of `self._last` right after `__init__` installs the lookup tables. -/
def initLast : Option Nat := none

/-- Embedding of `tx_param`: CS active; for a command byte, DC command then `_write` of
that one byte; for data, DC data then `_write` of the buffer; CS inactive. -/
def txParam (cfg : Cfg) (cmd : Option Nat) (data : Option (List Nat)) : List Ev :=
  [Ev.csA]
    ++ (match cmd with
        | some c => Ev.dcC :: hotWrite cfg [c]
        | none => [])
    ++ (match data with
        | some d => Ev.dcD :: hotWrite cfg d
        | none => [])
    ++ [Ev.csI]

/-- Is an event a data-pin register write? -/
def isDataWrite : Ev → Bool
  | Ev.mem32 _ _ => true
  | _ => false

/-- The strobe bracket emitted for one byte: WR inactive, the byte's
data-register writes (possibly none), WR active. -/
def strobeBlock (mid : List Ev) : List Ev := Ev.wrI :: mid ++ [Ev.wrA]

/-- The 32-bit port state of group `g` under a trace event: the group's set
register ORs bits in, its clear register clears them; all other events leave
the data pins alone. -/
def applyEvState (g : Nat) (st : Nat) : Ev → Nat
  | Ev.mem32 (Reg.set gw) v => if gw = g then st ||| v else st
  | Ev.mem32 (Reg.clr gw) v => if gw = g then st &&& ((2 ^ 32 - 1) ^^^ v) else st
  | _ => st

/-- Port state of group `g` after running a trace from state `st`. -/
def portState (g : Nat) (st : Nat) (tr : List Ev) : Nat :=
  tr.foldl (applyEvState g) st

end I80

namespace Display

/-! ### Blitting (`SDL2Display.blit_rect`, `PGDisplay.blit_rect`)

The display backing store (`self._buffer`: an SDL texture or a pygame
surface) is modelled as a list of rows of pixels.  A pixel stores the raw
byte slice written for it; `color_rgb`, defined in the `_BaseDisplay` base
class which is not part of the sources, is a pure per-pixel conversion of
that slice and is irrelevant to whether and when the store is modified. -/

/-- A stored pixel: the raw bytes it was written from. -/
abbrev Px : Type := List Nat

/-- The backing store: rows of pixels. -/
abbrev Store : Type := List (List Px)

/-- Embedding of `surface.set_at((x, y), c)`: replace the pixel at column `x` of row `y`. -/
def setAt (d : Store) (x y : Nat) (c : Px) : Store :=
  d.set y ((d.getD y []).set x c)

/-- Embedding of `PGDisplay.blit_rect`: for each `i in range(h)`, `j in range(w)`, take
the slice `buffer[(i*w+j)*bpp : (i*w+j)*bpp + bpp]` (a Python slice, which
silently clamps at the end of the buffer) and set the pixel at
`(x + j, y + i)`.  No buffer-length validation is performed and no
exception-raising path exists for in-bounds rectangles. -/
def pgBlitRect (bpp : Nat) (d : Store) (buffer : List Nat) (x y w h : Nat) : Store :=
  (List.range h).foldl
    (fun d i =>
      (List.range w).foldl
        (fun d j => setAt d (x + j) (y + i) ((buffer.drop ((i * w + j) * bpp)).take bpp))
        d)
    d

/-- The `SDL_UpdateTexture` effect of `SDL2Display.blit_rect`: copy the
rectangle's pixels out of the buffer (row pitch `pitch`, `bpp` bytes per
pixel) into the store. -/
def updateTexture (d : Store) (buffer : List Nat) (pitch bpp x y w h : Nat) : Store :=
  (List.range h).foldl
    (fun d i =>
      (List.range w).foldl
        (fun d j => setAt d (x + j) (y + i) ((buffer.drop (i * pitch + j * bpp)).take bpp))
        d)
    d

/-- Embedding of `SDL2Display.blit_rect`: `pitch = w * color_depth // 8`; if
`len(buffer) != pitch * h` it raises
`ValueError("Buffer size does not match dimensions")` before touching the
texture, otherwise it updates the texture. -/
def sdl2BlitRect (colorDepth : Nat) (d : Store) (buffer : List Nat) (x y w h : Nat) :
    Except String Store :=
  let pitch := w * colorDepth / 8
  if buffer.length ≠ pitch * h then
    Except.error "Buffer size does not match dimensions"
  else
    Except.ok (updateTexture d buffer pitch (colorDepth / 8) x y w h)

/-! ### Rotation setters -/

/-- Device capability tag.  Modelled from the spec: the `Devices`
enumeration lives in the `_BaseDisplay` module, which is not part of the
sources; the spec's data model gives each device "a capability tag
(pointer/touch class)", and the repository's board configurations register
touch devices as well as non-touch ones (e.g. the T-Embed encoder). -/
inductive DevType where
  | touch
  | other
deriving DecidableEq, Repr

/-- A registered input device.  Modelled from the spec: the `Device` class
is in the missing base module; per the spec it carries a capability tag and
a rotation-dependent coordinate-transform entry, selected by the device's
`rotation` attribute, which the setters assign. -/
structure Device where
  type : DevType
  rot : Int
deriving DecidableEq, Repr

/-- The rotation-dependent backing store of a display, by provenance: a
freshly created blank texture (`SDL_CreateTexture`, sized `w` by `h`), an
`SDL_RenderCopyEx` of a previous buffer into a fresh render-target texture
rotated by `angle` (with a centering destination rectangle unless the angle
is ±180), or a `pygame.transform.rotate` of a previous buffer. -/
inductive Buffer where
  | tex (w h : Nat)
  | copyEx (angle : Int) (centered : Bool) (src : Buffer)
  | pgRotate (angle : Int) (src : Buffer)
deriving DecidableEq, Repr

/-- Does `b` incorporate the content of `old` (is `old` itself, or a
transform chain ending at it)?  A fresh `tex` incorporates nothing beyond
itself. -/
def Buffer.usesContent (old b : Buffer) : Bool :=
  b == old ||
    match b with
    | Buffer.tex _ _ => false
    | Buffer.copyEx _ _ src => Buffer.usesContent old src
    | Buffer.pgRotate _ src => Buffer.usesContent old src

/-- Display state shared by both backends: the constructor-time `_width`,
`_height`, current `_rotation`, the backing `_buffer` and the registered
devices. -/
structure SurfState where
  wid : Nat
  hei : Nat
  rot : Int
  buf : Buffer
  devices : List Device
deriving DecidableEq, Repr

/-- Modelled from the spec: `_rotation_helper` (base module, not in the
sources) — rotation "accepts any integer degree value; normalizes modulo
360". -/
def rotationHelper (v : Int) : Int := v % 360

/-- Modelled from the spec: the base module's `width` property — "the
logical width/height swap when rotation is ±90°". -/
def logWidth (st : SurfState) : Nat := if st.rot % 180 = 0 then st.wid else st.hei

/-- Modelled from the spec: the base module's `height` property. -/
def logHeight (st : SurfState) : Nat := if st.rot % 180 = 0 then st.hei else st.wid

/-- The device loop shared by both rotation setters: only devices with
`device.type == Devices.TOUCH` get `device.rotation = value`. -/
def updateDevices (devs : List Device) (value : Int) : List Device :=
  devs.map fun d => if d.type = DevType.touch then { d with rot := value } else d

/-- Embedding of the `SDL2Display.rotation` setter: normalize, return if unchanged; when the
angle delta is non-zero, on CPython render-copy the old buffer into a fresh
texture rotated by the delta (centering unless the delta is ±180) and
replace the buffer with it, otherwise (MicroPython) destroy the buffer and
create a fresh blank texture sized `(self.height, self.width)`; record the
new rotation and update the touch devices. -/
def sdl2SetRotation (isCpython : Bool) (st : SurfState) (value : Int) : SurfState :=
  let v := rotationHelper value
  if v = st.rot then st
  else
    let angle := v % 360 - st.rot % 360
    let b :=
      if angle ≠ 0 then
        if isCpython then Buffer.copyEx angle (decide (angle.natAbs ≠ 180)) st.buf
        else Buffer.tex (logHeight st) (logWidth st)
      else st.buf
    { st with buf := b, rot := v, devices := updateDevices st.devices v }

/-- Embedding of the `PGDisplay.rotation` setter: normalize, return if unchanged; when the
angle delta is non-zero replace the buffer with
`pygame.transform.rotate(buffer, -angle)`; record the new rotation and
update the touch devices. -/
def pgSetRotation (st : SurfState) (value : Int) : SurfState :=
  let v := rotationHelper value
  if v = st.rot then st
  else
    let angle := v % 360 - st.rot % 360
    let b := if angle ≠ 0 then Buffer.pgRotate (-angle) st.buf else st.buf
    { st with buf := b, rot := v, devices := updateDevices st.devices v }

/-! ### Scroll compositing (`_show` with an enabled scroll start address) -/

/-- One `SDL_RenderCopy` / `Surface.blit` pass: a full-width band of `ht`
rows copied from buffer row `srcY` to window row `destY`. -/
structure CopyPass where
  srcY : Nat
  destY : Nat
  ht : Nat
deriving DecidableEq, Repr

/-- The four passes of `SDL2Display._show` when a scroll start address
`ystart` is enabled: the top fixed area at its native position (when
present), `vsaTopHeight = vsa + tfa - ystart` rows from `ystart` placed at
`tfa`, the remaining `vsa - vsaTopHeight` rows from `tfa` placed below them,
and the bottom fixed area at its native position (when present). -/
def sdlShowPasses (tfa vsa bfa ystart : Nat) : List CopyPass :=
  (if 0 < tfa then [⟨0, 0, tfa⟩] else [])
    ++ [⟨ystart, tfa, vsa + tfa - ystart⟩,
        ⟨tfa, tfa + (vsa + tfa - ystart), vsa - (vsa + tfa - ystart)⟩]
    ++ (if 0 < bfa then [⟨tfa + vsa, tfa + vsa, bfa⟩] else [])

/-- The four passes of `PGDisplay._show` with an enabled scroll start
address: identical to the SDL2 passes after every extent is multiplied by
the window scale `s` (the source stores a float scale; the claims concern
the unscaled geometry, `s = 1`). -/
def pgShowPasses (s tfa vsa bfa ystart : Nat) : List CopyPass :=
  (if 0 < tfa * s then [⟨0, 0, tfa * s⟩] else [])
    ++ [⟨ystart * s, tfa * s, vsa * s + tfa * s - ystart * s⟩,
        ⟨tfa * s, tfa * s + (vsa * s + tfa * s - ystart * s),
          vsa * s - (vsa * s + tfa * s - ystart * s)⟩]
    ++ (if 0 < bfa * s then [⟨tfa * s + vsa * s, tfa * s + vsa * s, bfa * s⟩] else [])

/-- Which buffer row ends up displayed at window row `y` after the passes
run in order (later passes overwrite earlier ones, matching the sequential
blits); `none` where no pass wrote. -/
def renderedSrc (passes : List CopyPass) (y : Nat) : Option Nat :=
  passes.foldl
    (fun acc p => if p.destY ≤ y ∧ y < p.destY + p.ht then some (p.srcY + (y - p.destY)) else acc)
    none

end Display

namespace I80

/-! ### Bit-level helper lemmas -/

/-- Adding numbers with disjoint bits is bitwise or. -/
theorem add_eq_or_of_and_eq_zero (x : Nat) : ∀ y : Nat, x &&& y = 0 → x + y = x ||| y := by
  induction x using Nat.strong_induction_on with
  | _ x ih =>
    intro y h
    rcases Nat.eq_zero_or_pos x with hx | hx
    · subst hx; simp
    · have hdiv : x / 2 &&& y / 2 = 0 := by
        rw [← Nat.and_div_two, h]
      have ihd : x / 2 + y / 2 = x / 2 ||| y / 2 :=
        ih (x / 2) (Nat.div_lt_self hx (by norm_num)) _ hdiv
      have hm : ¬(x % 2 = 1 ∧ y % 2 = 1) := by
        intro hc
        have hone := Nat.and_mod_two_eq_one.mpr hc
        rw [h] at hone
        simp at hone
      have e1 := Nat.div_add_mod x 2
      have e2 := Nat.div_add_mod y 2
      have e3 := Nat.div_add_mod (x ||| y) 2
      rw [Nat.or_div_two, ← ihd] at e3
      have hiff := @Nat.or_mod_two_eq_one x y
      have hx2 := Nat.mod_two_eq_zero_or_one x
      have hy2 := Nat.mod_two_eq_zero_or_one y
      have ho2 := Nat.mod_two_eq_zero_or_one (x ||| y)
      omega

/-- Bits of a sum of distinct powers of two. -/
theorem testBit_sum_two_pow {es : List Nat} (h : es.Nodup) : ∀ b : Nat,
    ((es.map (fun e => 2 ^ e)).sum).testBit b = decide (b ∈ es) := by
  induction es with
  | nil => simp
  | cons e rest ih =>
    intro b
    have hnd := List.nodup_cons.mp h
    have hdisj : (2 ^ e) &&& (rest.map (fun e => 2 ^ e)).sum = 0 := by
      apply Nat.eq_of_testBit_eq
      intro i
      simp only [Nat.testBit_and, Nat.testBit_two_pow, ih hnd.2 i, Nat.zero_testBit]
      by_cases hei : e = i
      · subst hei; simp [hnd.1]
      · simp [hei]
    rw [List.map_cons, List.sum_cons, add_eq_or_of_and_eq_zero _ _ hdisj]
    simp only [Nat.testBit_or, Nat.testBit_two_pow, ih hnd.2 b, List.mem_cons]
    by_cases h1 : e = b <;> by_cases h2 : b ∈ rest <;> simp [h1, h2, eq_comm] <;> omega

/-- The pin-mask of a group has exactly the bits of the group's assigned
pins, at their in-group positions. -/
theorem testBit_pinMask {pins : List Nat} (hnd : pins.Nodup) (g b : Nat) :
    (pinMask pins g).testBit b = true ↔ ∃ p ∈ pins, p / 32 = g ∧ p % 32 = b := by
  have hmm : pinMask pins g
      = (((lutPins pins g).map (fun p => p - 32 * g)).map (fun e => 2 ^ e)).sum := by
    rw [pinMask, List.map_map]
    rfl
  have hin : ∀ p ∈ lutPins pins g, 32 * g ≤ p ∧ p < 32 * g + 32 := by
    intro p hp
    have := List.mem_filter.mp hp
    simpa using this.2
  have hndm : ((lutPins pins g).map (fun p => p - 32 * g)).Nodup := by
    apply List.Nodup.map_on
    · intro a ha b hb hab
      have h1 := hin a ha
      have h2 := hin b hb
      omega
    · exact List.Nodup.filter _ hnd
  rw [hmm, testBit_sum_two_pow hndm b]
  simp only [decide_eq_true_eq, List.mem_map, lutPins, List.mem_filter, decide_eq_true_eq]
  constructor
  · rintro ⟨p, ⟨hp, hrange⟩, hsub⟩
    exact ⟨p, hp, by omega, by omega⟩
  · rintro ⟨p, hp, hdivr, hmodr⟩
    exact ⟨p, ⟨hp, by omega⟩, by omega⟩

/-- The test `index & (1 << bit_number)` is non-zero exactly when the bit is set. -/
theorem and_one_shift_ne_zero (v i : Nat) : v &&& (1 <<< i) ≠ 0 ↔ v.testBit i = true := by
  rw [Nat.shiftLeft_eq, one_mul, Nat.and_two_pow]
  cases hb : v.testBit i
  · simp [hb]
  · simp [hb, (Nat.two_pow_pos i).ne']

/-- Bits of the population fold: a bit is set in the result exactly when it
was already set in the accumulator, or some enumerated pin lands in group
`g` at that bit position with its data bit set in `v`. -/
theorem testBit_lutEntryAux (g v : Nat) :
    ∀ (l : List Nat) (i acc b : Nat),
      (lutEntryAux g v l i acc).testBit b = true ↔
        acc.testBit b = true ∨
          ∃ j, ∃ hj : j < l.length, v.testBit (i + j) = true ∧
            l.get ⟨j, hj⟩ / 32 = g ∧ l.get ⟨j, hj⟩ % 32 = b := by
  intro l
  induction l with
  | nil => intro i acc b; simp [lutEntryAux]
  | cons p rest ih =>
    intro i acc b
    rw [lutEntryAux, ih]
    by_cases hc : v &&& (1 <<< i) ≠ 0 ∧ p / 32 = g
    · rw [if_pos hc]
      have hvb : v.testBit i = true := (and_one_shift_ne_zero v i).mp hc.1
      simp only [Nat.testBit_or, Nat.shiftLeft_eq, one_mul, Nat.testBit_two_pow,
        Bool.or_eq_true, decide_eq_true_eq]
      constructor
      · rintro ((ha | hpb) | ⟨j, hj, hb1, hb2, hb3⟩)
        · exact Or.inl ha
        · exact Or.inr ⟨0, by simp, by simpa using hvb, by simpa using hc.2, by simpa using hpb⟩
        · exact Or.inr ⟨j + 1, by simpa using Nat.succ_lt_succ hj,
            by simpa [Nat.add_assoc, Nat.add_comm 1 j] using hb1, by simpa using hb2,
            by simpa using hb3⟩
      · rintro (ha | ⟨j, hj, hb1, hb2, hb3⟩)
        · exact Or.inl (Or.inl ha)
        · cases j with
          | zero => exact Or.inl (Or.inr (by simpa using hb3))
          | succ j =>
            exact Or.inr ⟨j, by simpa using Nat.lt_of_succ_lt_succ hj,
              by simpa [Nat.add_assoc, Nat.add_comm 1 j] using hb1, by simpa using hb2,
              by simpa using hb3⟩
    · rw [if_neg hc]
      constructor
      · rintro (ha | ⟨j, hj, hb1, hb2, hb3⟩)
        · exact Or.inl ha
        · exact Or.inr ⟨j + 1, by simpa using Nat.succ_lt_succ hj,
            by simpa [Nat.add_assoc, Nat.add_comm 1 j] using hb1, by simpa using hb2,
            by simpa using hb3⟩
      · rintro (ha | ⟨j, hj, hb1, hb2, hb3⟩)
        · exact Or.inl ha
        · cases j with
          | zero =>
            exfalso
            apply hc
            refine ⟨(and_one_shift_ne_zero v i).mpr ?_, by simpa using hb2⟩
            simpa using hb1
          | succ j =>
            exact Or.inr ⟨j, by simpa using Nat.lt_of_succ_lt_succ hj,
              by simpa [Nat.add_assoc, Nat.add_comm 1 j] using hb1, by simpa using hb2,
              by simpa using hb3⟩

/-- Bits of a lookup-table entry: exactly the in-group positions of
assigned pins whose data bit is set in `v`. -/
theorem testBit_lutEntry (pins : List Nat) (g v b : Nat) :
    (lutEntry pins g v).testBit b = true ↔
      ∃ j, ∃ hj : j < pins.length, v.testBit j = true ∧
        pins.get ⟨j, hj⟩ / 32 = g ∧ pins.get ⟨j, hj⟩ % 32 = b := by
  rw [lutEntry, testBit_lutEntryAux]
  simp

/-- C1: for 8 distinct data pins and any byte value `v`, the lookup-table
entry of `v` in group `g` has bit `p % 32` set exactly for the assigned pins
`p` of that group whose mapped data bit of `v` is 1; the clear mask
`entry ^ pin_mask` covers exactly the group's remaining assigned pins; and
applying the (set, clear) pair to an all-clear port state yields exactly the
set mask, so the port bits encode `v` and all other pins of the group are
0. -/
theorem c1_lookup_table_correct (pins : List Nat) (g v : Nat)
    (hnd : pins.Nodup) (hlen : pins.length = 8) (hv : v < 256) :
    (∀ b, (lutEntry pins g v).testBit b = true ↔
        ∃ j, ∃ hj : j < pins.length, v.testBit j = true ∧
          pins.get ⟨j, hj⟩ / 32 = g ∧ pins.get ⟨j, hj⟩ % 32 = b)
    ∧ (∀ b, ((lutEntry pins g v) ^^^ (pinMask pins g)).testBit b = true ↔
        ∃ j, ∃ hj : j < pins.length, v.testBit j = false ∧
          pins.get ⟨j, hj⟩ / 32 = g ∧ pins.get ⟨j, hj⟩ % 32 = b)
    ∧ applySetClr 0 (lutEntry pins g v) ((lutEntry pins g v) ^^^ (pinMask pins g))
        = lutEntry pins g v := by
  have hmem : ∀ b, (pinMask pins g).testBit b = true ↔
      ∃ j, ∃ hj : j < pins.length,
        pins.get ⟨j, hj⟩ / 32 = g ∧ pins.get ⟨j, hj⟩ % 32 = b := by
    intro b
    rw [testBit_pinMask hnd g b]
    constructor
    · rintro ⟨p, hp, h1, h2⟩
      rcases List.mem_iff_get.mp hp with ⟨j, hget⟩
      refine ⟨j.1, j.2, ?_, ?_⟩
      · rw [Fin.eta, hget]; exact h1
      · rw [Fin.eta, hget]; exact h2
    · rintro ⟨j, hj, h1, h2⟩
      exact ⟨pins.get ⟨j, hj⟩, List.get_mem pins j hj, h1, h2⟩
  have hsub : ∀ b, (lutEntry pins g v).testBit b = true →
      (pinMask pins g).testBit b = true := by
    intro b hb
    rcases (testBit_lutEntry pins g v b).mp hb with ⟨j, hj, _, h2, h3⟩
    exact (hmem b).mpr ⟨j, hj, h2, h3⟩
  refine ⟨fun b => testBit_lutEntry pins g v b, fun b => ?_, ?_⟩
  · rw [Nat.testBit_xor]
    constructor
    · intro hxor
      cases hs : (lutEntry pins g v).testBit b with
      | true =>
        have hm := hsub b hs
        rw [hs, hm] at hxor
        simp at hxor
      | false =>
        rw [hs] at hxor
        simp only [Bool.false_xor] at hxor
        rcases (hmem b).mp hxor with ⟨j, hj, h1, h2⟩
        refine ⟨j, hj, ?_, h1, h2⟩
        cases hvj : v.testBit j with
        | false => rfl
        | true =>
          have : (lutEntry pins g v).testBit b = true :=
            (testBit_lutEntry pins g v b).mpr ⟨j, hj, hvj, h1, h2⟩
          rw [this] at hs
          cases hs
    · rintro ⟨j, hj, hvf, h1, h2⟩
      have hm : (pinMask pins g).testBit b = true := (hmem b).mpr ⟨j, hj, h1, h2⟩
      have hs : (lutEntry pins g v).testBit b = false := by
        cases hs : (lutEntry pins g v).testBit b with
        | false => rfl
        | true =>
          rcases (testBit_lutEntry pins g v b).mp hs with ⟨j2, hj2, hv2, h12, h22⟩
          have hpj : pins.get ⟨j, hj⟩ = 32 * g + b := by omega
          have hpj2 : pins.get ⟨j2, hj2⟩ = 32 * g + b := by omega
          have heq : (⟨j, hj⟩ : Fin pins.length) = ⟨j2, hj2⟩ :=
            (List.Nodup.get_inj_iff hnd).mp (by rw [hpj, hpj2])
          have hjj : j = j2 := by simpa using heq
          rw [hjj, hv2] at hvf
          cases hvf
      rw [hs, hm]
      rfl
  · apply Nat.eq_of_testBit_eq
    intro i
    rw [applySetClr]
    simp only [Nat.zero_or, Nat.testBit_and, Nat.testBit_xor, Nat.testBit_two_pow_sub_one]
    cases hs : (lutEntry pins g v).testBit i with
    | false => simp
    | true =>
      have hm := hsub i hs
      have hlt : i < 32 := by
        rcases (testBit_lutEntry pins g v i).mp hs with ⟨j, hj, _, _, h3⟩
        omega
      rw [hm]
      simp [hlt]

/-- C1 witness: the theorem applied to the concrete pin assignment
`[9, 46, 3, 8, 18, 17, 16, 15]`, group 0 and byte `0x36`. -/
theorem c1_lookup_table_correct_witness :
    (∀ b, (lutEntry [9, 46, 3, 8, 18, 17, 16, 15] 0 0x36).testBit b = true ↔
        ∃ j, ∃ hj : j < ([9, 46, 3, 8, 18, 17, 16, 15] : List Nat).length,
          (0x36 : Nat).testBit j = true ∧
          ([9, 46, 3, 8, 18, 17, 16, 15] : List Nat).get ⟨j, hj⟩ / 32 = 0 ∧
          ([9, 46, 3, 8, 18, 17, 16, 15] : List Nat).get ⟨j, hj⟩ % 32 = b)
    ∧ (∀ b, ((lutEntry [9, 46, 3, 8, 18, 17, 16, 15] 0 0x36)
          ^^^ (pinMask [9, 46, 3, 8, 18, 17, 16, 15] 0)).testBit b = true ↔
        ∃ j, ∃ hj : j < ([9, 46, 3, 8, 18, 17, 16, 15] : List Nat).length,
          (0x36 : Nat).testBit j = false ∧
          ([9, 46, 3, 8, 18, 17, 16, 15] : List Nat).get ⟨j, hj⟩ / 32 = 0 ∧
          ([9, 46, 3, 8, 18, 17, 16, 15] : List Nat).get ⟨j, hj⟩ % 32 = b)
    ∧ applySetClr 0 (lutEntry [9, 46, 3, 8, 18, 17, 16, 15] 0 0x36)
        ((lutEntry [9, 46, 3, 8, 18, 17, 16, 15] 0 0x36)
          ^^^ (pinMask [9, 46, 3, 8, 18, 17, 16, 15] 0))
        = lutEntry [9, 46, 3, 8, 18, 17, 16, 15] 0 0x36 :=
  c1_lookup_table_correct [9, 46, 3, 8, 18, 17, 16, 15] 0 0x36
    (by decide) (by decide) (by decide)

/-! ### Lookup-table allocation bounds -/

/-- Every pin is bounded by the list maximum. -/
theorem le_maxPins {pins : List Nat} {p : Nat} (hp : p ∈ pins) : p ≤ maxPins pins := by
  induction pins with
  | nil => cases hp
  | cons q rest ih =>
    rcases List.mem_cons.mp hp with h | h
    · subst h; exact le_max_left _ _
    · exact le_trans (ih h) (le_max_right _ _)

/-- A positive list maximum is attained by some element. -/
theorem maxPins_mem_of_pos {pins : List Nat} (hpos : 0 < maxPins pins) :
    maxPins pins ∈ pins := by
  induction pins with
  | nil => simp [maxPins] at hpos
  | cons q rest ih =>
    by_cases hq : maxPins rest ≤ q
    · have : maxPins (q :: rest) = q := max_eq_left hq
      rw [this]
      exact List.mem_cons_self _ _
    · have hmax : maxPins (q :: rest) = maxPins rest := max_eq_right (le_of_not_le hq)
      rw [hmax]
      rw [hmax] at hpos
      exact List.mem_cons_of_mem _ (ih hpos)

/-- Two or more distinct pins force a positive maximum. -/
theorem maxPins_pos {pins : List Nat} (hnd : pins.Nodup) (hlen : 2 ≤ pins.length) :
    0 < maxPins pins := by
  match pins, hlen with
  | a :: b :: t, _ =>
    have hab : a ≠ b := by
      have := List.nodup_cons.mp hnd
      intro h
      exact this.1 (h ▸ List.mem_cons_self _ _)
    have ha : a ≤ maxPins (a :: b :: t) := le_maxPins (List.mem_cons_self _ _)
    have hb : b ≤ maxPins (a :: b :: t) :=
      le_maxPins (List.mem_cons_of_mem _ (List.mem_cons_self _ _))
    omega

/-- The lookup-table population loop of `_setup_data_pins` stays within
the groups allocated by `range(0, max(pins), 32)` exactly when the largest
of the 8 distinct pins is not a positive multiple of 32; when it is (e.g. a
maximum of exactly 32, 64 or 96), the subscript
`self._lookup_tables[pin // 32]` raises an uncaught `IndexError`. -/
theorem populateOk_iff_not_dvd (pins : List Nat)
    (hlen : pins.length = 8) (hnd : pins.Nodup) :
    populateOk pins = true ↔ ¬(0 < maxPins pins ∧ 32 ∣ maxPins pins) := by
  have hpos : 0 < maxPins pins := maxPins_pos hnd (by omega)
  rw [populateOk, List.all_eq_true]
  constructor
  · rintro hall ⟨_, hdvd⟩
    have hmem : maxPins pins ∈ pins := maxPins_mem_of_pos hpos
    have hbound := hall _ hmem
    rw [decide_eq_true_eq, numLuts] at hbound
    omega
  · intro hno p hp
    rw [decide_eq_true_eq, numLuts]
    have hle := le_maxPins hp
    have hndvd : ¬ 32 ∣ maxPins pins := fun hd => hno ⟨hpos, hd⟩
    omega

/-- C10 counterexample: the 8 distinct pins `[1,2,3,4,5,6,7,70]` have
maximum 70, not a multiple of 32, and the three allocated groups cover
every `pin // 32` index — yet construction still fails: group 1
(pins 32–63) is empty, so its lookup table is `None` and the unconditional
`addressof(self._lookup_tables[1])` in the `pin_data` packing loop raises,
refuting the claim's "construction succeeds" branch. -/
theorem c10_counterexample :
    populateOk [1, 2, 3, 4, 5, 6, 7, 70] = true
    ∧ ¬(32 ∣ maxPins [1, 2, 3, 4, 5, 6, 7, 70])
    ∧ numLuts [1, 2, 3, 4, 5, 6, 7, 70] = 3
    ∧ pinMask [1, 2, 3, 4, 5, 6, 7, 70] 1 = 0
    ∧ packOk [1, 2, 3, 4, 5, 6, 7, 70] = false
    ∧ setupOk [1, 2, 3, 4, 5, 6, 7, 70] = false := by
  decide

/-- C10 (amended): with 8 distinct data pins, the population loop's
subscripts stay within the allocated groups exactly when the largest pin is
not a positive multiple of 32 (otherwise `lookup_tables[pin // 32]` raises
an uncaught `IndexError`); but covering the indexes is not sufficient for
construction to succeed — the whole of `_setup_data_pins` completes exactly
when, in addition, every allocated group contains at least one pin, since
the `pin_data` packing calls `addressof` on each group's lookup table and
an empty group's table is `None`. -/
theorem c10_construction (pins : List Nat)
    (hlen : pins.length = 8) (hnd : pins.Nodup) :
    (populateOk pins = true ↔ ¬(0 < maxPins pins ∧ 32 ∣ maxPins pins))
    ∧ (setupOk pins = true ↔
        (¬(0 < maxPins pins ∧ 32 ∣ maxPins pins)
          ∧ ∀ g, g < numLuts pins → pinMask pins g ≠ 0)) := by
  have hpop := populateOk_iff_not_dvd pins hlen hnd
  refine ⟨hpop, ?_⟩
  rw [setupOk, Bool.and_eq_true, packOk, List.all_eq_true]
  constructor
  · rintro ⟨h1, h2⟩
    refine ⟨hpop.mp h1, ?_⟩
    intro g hg
    simpa using h2 g (List.mem_range.mpr hg)
  · rintro ⟨h1, h2⟩
    refine ⟨hpop.mpr h1, ?_⟩
    intro g hg
    simpa using h2 g (List.mem_range.mp hg)

/-- C10 witness: the amended theorem at the example pin assignment
`[9,46,3,8,18,17,16,15]` (maximum 46; both allocated groups populated). -/
theorem c10_construction_witness :
    (populateOk [9, 46, 3, 8, 18, 17, 16, 15] = true
      ↔ ¬(0 < maxPins [9, 46, 3, 8, 18, 17, 16, 15]
            ∧ 32 ∣ maxPins [9, 46, 3, 8, 18, 17, 16, 15]))
    ∧ (setupOk [9, 46, 3, 8, 18, 17, 16, 15] = true
      ↔ (¬(0 < maxPins [9, 46, 3, 8, 18, 17, 16, 15]
            ∧ 32 ∣ maxPins [9, 46, 3, 8, 18, 17, 16, 15])
          ∧ ∀ g, g < numLuts [9, 46, 3, 8, 18, 17, 16, 15]
              → pinMask [9, 46, 3, 8, 18, 17, 16, 15] g ≠ 0)) :=
  c10_construction [9, 46, 3, 8, 18, 17, 16, 15] (by decide) (by decide)

/-! ### The spec's concrete scenario -/

/-- The spec's concrete pin assignment `[d0..d7] = [9,46,3,8,18,17,16,15]`
on 32-bit-port hardware. -/
def cfgEx32 : Cfg := ⟨[9, 46, 3, 8, 18, 17, 16, 15], true⟩

/-- The same pin assignment on 16-bit-port hardware
(`gpio.pins_per_port == 16`). -/
def cfgEx16 : Cfg := ⟨[9, 46, 3, 8, 18, 17, 16, 15], false⟩

/-- C2: with pins `[9,46,3,8,18,17,16,15]`, writing `0x36` then `0x36`
again issues the set/clear pair of each port group exactly once (the second
byte's data-register writes are elided), leaving the port state after the
second byte's set/clear step identical to after the first; writing `0x36`
then `0x00` issues a second pair per group whose clear mask is the group's
full pin mask; in both cases the write strobe toggles once per byte. -/
theorem c2_concrete_scenario :
    (∀ st g : Nat,
      portState g st (hotWrite cfgEx32 [0x36, 0x36])
        = portState g st (hotWrite cfgEx32 [0x36]))
    ∧ hotWrite cfgEx32 [0x36, 0x36]
        = strobeBlock (dataWrites cfgEx32 0x36) ++ strobeBlock []
    ∧ (hotWrite cfgEx32 [0x36, 0x36]).filter isDataWrite
        = [Ev.mem32 (Reg.set 0) 393224, Ev.mem32 (Reg.clr 0) 99072,
           Ev.mem32 (Reg.set 1) 16384, Ev.mem32 (Reg.clr 1) 0]
    ∧ (hotWrite cfgEx32 [0x36, 0x00]).filter isDataWrite
        = [Ev.mem32 (Reg.set 0) 393224, Ev.mem32 (Reg.clr 0) 99072,
           Ev.mem32 (Reg.set 1) 16384, Ev.mem32 (Reg.clr 1) 0,
           Ev.mem32 (Reg.set 0) 0, Ev.mem32 (Reg.clr 0) (pinMask cfgEx32.pins 0),
           Ev.mem32 (Reg.set 1) 0, Ev.mem32 (Reg.clr 1) (pinMask cfgEx32.pins 1)]
    ∧ (hotWrite cfgEx32 [0x36, 0x36]).count Ev.wrI = 2
    ∧ (hotWrite cfgEx32 [0x36, 0x36]).count Ev.wrA = 2
    ∧ (hotWrite cfgEx32 [0x36, 0x00]).count Ev.wrI = 2
    ∧ (hotWrite cfgEx32 [0x36, 0x00]).count Ev.wrA = 2 := by
  refine ⟨?_, by decide, by decide, by decide, by decide, by decide, by decide, by decide⟩
  intro st g
  have h : hotWrite cfgEx32 [0x36, 0x36] = hotWrite cfgEx32 [0x36] ++ [Ev.wrI, Ev.wrA] := by
    decide
  rw [h, portState, List.foldl_append]
  rfl

/-- C4: on 16-bit-port hardware the transmit hot path `_write` does not
take the combined set/reset path.  Because of the `if True:` in `_write`,
the emitted values are the plain 32-bit set/clear values written to the two
half-group set/reset registers, while `_write_slow` — implementing the
specified behaviour — writes the combined words
`(tx & 0xFFFF) | ((tx ^ mask) << 16)` and
`(tx >> 16) | ((tx ^ mask) & 0xFFFF0000)`; at pins
`[9,46,3,8,18,17,16,15]` and byte `0x36` the two traces differ. -/
theorem c4_hot_path_16bit_divergence :
    cfgEx16.use32 = false
    ∧ dataWrites cfgEx16 0x36
        = [Ev.mem32 (Reg.sreset 0 0) 393224, Ev.mem32 (Reg.sreset 0 1) 99072,
           Ev.mem32 (Reg.sreset 1 0) 16384, Ev.mem32 (Reg.sreset 1 1) 0]
    ∧ slowDataWrites cfgEx16 0x36
        = [Ev.mem32 (Reg.sreset 0 0) ((393224 &&& 0xFFFF) ||| ((393224 ^^^ 492296) <<< 16)),
           Ev.mem32 (Reg.sreset 0 1) ((393224 >>> 16) ||| ((393224 ^^^ 492296) &&& 0xFFFF0000)),
           Ev.mem32 (Reg.sreset 1 0) ((16384 &&& 0xFFFF) ||| ((16384 ^^^ 16384) <<< 16)),
           Ev.mem32 (Reg.sreset 1 1) ((16384 >>> 16) ||| ((16384 ^^^ 16384) &&& 0xFFFF0000))]
    ∧ dataWrites cfgEx16 0x36 ≠ slowDataWrites cfgEx16 0x36 := by
  decide

/-- C7 counterexample: the viper `_write` keeps no state between calls —
its `last` local is initialized to `-1` on entry, so the trace of a
transmit of `[0x36]` is the same whatever was transmitted before, and the
first byte is never elided: a transmit of `[0x36]` immediately after a
transmit ending in `0x36` still performs all data-register writes instead
of the elided trace `strobeBlock []` the claim predicts. -/
theorem c7_counterexample :
    hotWrite cfgEx32 [0x36]
      = [Ev.wrI, Ev.mem32 (Reg.set 0) 393224, Ev.mem32 (Reg.clr 0) 99072,
         Ev.mem32 (Reg.set 1) 16384, Ev.mem32 (Reg.clr 1) 0, Ev.wrA]
    ∧ hotWrite cfgEx32 [0x36] ≠ strobeBlock [] := by
  decide

/-- After a non-empty `_write_slow`, the persistent `self._last` holds the
final transmitted byte. -/
theorem slowWriteAux_last (cfg : Cfg) : ∀ (data : List Nat) (st : Option Nat)
    (h : data ≠ []), (slowWriteAux cfg data st).2 = some (data.getLast h) := by
  intro data
  induction data with
  | nil => intro st h; cases h rfl
  | cons v rest ih =>
    intro st h
    cases rest with
    | nil =>
      by_cases hw : some v = st
      · simp [slowWriteAux, hw]
      · simp [slowWriteAux, hw]
    | cons w t =>
      rw [slowWriteAux, List.getLast_cons (by simp)]
      exact ih _ (by simp)

/-- C7 (amended): the hot path begins every call with its local `last` at
`-1`, so the first byte of every `_write` call is written in full; only the
slow path's `self._last` persists across calls — after a non-empty write it
holds the final byte, and a following call whose first byte equals it
elides that byte's data-register writes. -/
theorem c7_amended (cfg : Cfg) (v : Nat) (rest data1 : List Nat) (st : Option Nat)
    (hne : data1 ≠ []) :
    hotWrite cfg (v :: rest)
      = strobeBlock (dataWrites cfg v) ++ hotWriteAux cfg rest (v : Int)
    ∧ (slowWriteAux cfg data1 st).2 = some (data1.getLast hne)
    ∧ (slowWriteAux cfg (v :: rest) (some v)).1
        = strobeBlock [] ++ (slowWriteAux cfg rest (some v)).1 := by
  refine ⟨?_, slowWriteAux_last cfg data1 st hne, ?_⟩
  · have hv : (v : Int) ≠ -1 := by omega
    rw [hotWrite, hotWriteAux, if_pos hv, if_pos hv, strobeBlock]
  · rw [slowWriteAux]
    simp [strobeBlock]

/-- C7 amended-claim witness: the theorem at the example configuration,
byte `0x36`, prior write `[0x36]` and initial `self._last = None`. -/
theorem c7_amended_witness :
    hotWrite cfgEx32 [0x36]
      = strobeBlock (dataWrites cfgEx32 0x36) ++ hotWriteAux cfgEx32 [] (0x36 : Int)
    ∧ (slowWriteAux cfgEx32 [0x36] initLast).2 = some (([0x36] : List Nat).getLast (by decide))
    ∧ (slowWriteAux cfgEx32 [0x36] (some 0x36)).1
        = strobeBlock [] ++ (slowWriteAux cfgEx32 [] (some 0x36)).1 :=
  c7_amended cfgEx32 0x36 [] [0x36] initLast (by decide)

/-- Every event of a byte's data-register writes is a data-pin register
write. -/
theorem isDataWrite_of_mem_dataWrites (cfg : Cfg) (val : Nat) :
    ∀ e ∈ dataWrites cfg val, isDataWrite e = true := by
  intro e he
  rw [dataWrites] at he
  rcases List.mem_flatMap.mp he with ⟨n, _, hn⟩
  by_cases h1 : pinMask cfg.pins n ≠ 0
  · cases hu : cfg.use32 <;> simp [h1, hu] at hn <;> rcases hn with rfl | rfl <;> rfl
  · simp [h1] at hn

/-- C8: a transmit performs chip-select assert first, then (when present)
command-mode select with the command byte's strobe sequence, then (when
present) data-mode select with each data byte's strobe sequence, then
chip-select deassert; and every `_write` call decomposes into one strobe
block per byte — write-strobe inactive, the byte's data-register writes
(none for an elided repeat), write-strobe active. -/
theorem c8_transmit_order (cfg : Cfg) (cmd : Option Nat) (data : Option (List Nat)) :
    txParam cfg cmd data
      = [Ev.csA]
        ++ (match cmd with
            | some c => Ev.dcC :: hotWrite cfg [c]
            | none => [])
        ++ (match data with
            | some d => Ev.dcD :: hotWrite cfg d
            | none => [])
        ++ [Ev.csI]
    ∧ (∀ (d : List Nat) (last : Int), ∃ mids : List (List Ev),
        hotWriteAux cfg d last = (mids.map strobeBlock).flatten
        ∧ mids.length = d.length
        ∧ ∀ mid ∈ mids, ∀ e ∈ mid, isDataWrite e = true) := by
  refine ⟨rfl, ?_⟩
  intro d
  induction d with
  | nil => intro last; exact ⟨[], rfl, rfl, by simp⟩
  | cons v rest ih =>
    intro last
    rcases ih (if (v : Int) ≠ last then (v : Int) else last) with ⟨mids, h1, h2, h3⟩
    refine ⟨(if (v : Int) ≠ last then dataWrites cfg v else []) :: mids,
      ?_, by simp [h2], ?_⟩
    · rw [hotWriteAux, h1]
      simp [strobeBlock]
    · intro mid hmid e he
      rcases List.mem_cons.mp hmid with rfl | hm
      · by_cases hc : (v : Int) ≠ last
        · rw [if_pos hc] at he
          exact isDataWrite_of_mem_dataWrites cfg v e he
        · rw [if_neg hc] at he
          cases he
      · exact h3 mid hm e he

end I80

namespace Display

/-! ### C5: blit buffer-size validation -/

/-- C5 (amended): on the SDL2 backend a blit whose buffer length differs
from the rectangle's byte size `pitch * h` is rejected with
`ValueError("Buffer size does not match dimensions")` before the texture is
touched, leaving the prior store intact; the pygame backend performs no such
validation (see the counterexample). -/
theorem c5_sdl2_all_or_nothing (colorDepth : Nat) (d : Store) (buffer : List Nat)
    (x y w h : Nat) (hm : buffer.length ≠ w * colorDepth / 8 * h) :
    sdl2BlitRect colorDepth d buffer x y w h
      = Except.error "Buffer size does not match dimensions" := by
  rw [sdl2BlitRect]
  exact if_pos hm

/-- C5 witness: the SDL2 rejection at a concrete mismatched blit (a 4-byte
buffer for a 1×1 16-bit rectangle). -/
theorem c5_sdl2_all_or_nothing_witness :
    sdl2BlitRect 16 [[[0, 0]]] [1, 2, 3, 4] 0 0 1 1
      = Except.error "Buffer size does not match dimensions" :=
  c5_sdl2_all_or_nothing 16 [[[0, 0]]] [1, 2, 3, 4] 0 0 1 1 (by decide)

/-- C5 counterexample: on the pygame backend a blit whose 4-byte buffer does
not match the 1×1 rectangle's 2-byte size is not rejected — `blit_rect` has
no length check and no raising path here — and the store is modified before
control returns, so the operation is neither refused nor all-or-nothing. -/
theorem c5_counterexample :
    pgBlitRect 2 [[[0, 0]]] [1, 2, 3, 4] 0 0 1 1 = [[[1, 2]]]
    ∧ ([1, 2, 3, 4] : List Nat).length ≠ 1 * 2 * 1
    ∧ pgBlitRect 2 [[[0, 0]]] [1, 2, 3, 4] 0 0 1 1 ≠ [[[0, 0]]] := by
  decide

/-! ### C6 / C9: rotation setters -/

/-- A display state used in the rotation scenarios: 320×240, rotation 0, a
fresh backing texture, no devices. -/
def stEx : SurfState := ⟨320, 240, 0, Buffer.tex 320 240, []⟩

/-- A display state with one registered non-touch device (e.g. an encoder,
as on the T-Embed board). -/
def stExDev : SurfState := ⟨320, 240, 0, Buffer.tex 320 240, [⟨DevType.other, 0⟩]⟩

/-- A display state with one registered touch device. -/
def stExTouch : SurfState := ⟨320, 240, 0, Buffer.tex 320 240, [⟨DevType.touch, 0⟩]⟩

/-- Every buffer incorporates its own content. -/
theorem usesContent_self (b : Buffer) : Buffer.usesContent b b = true := by
  rw [Buffer.usesContent.eq_def]
  simp

/-- C6 (amended): a parity-altering rotation change swaps the logical width
and height and, on the pygame backend and on the SDL2 backend under
CPython, replaces the backing buffer with a transform of the previous
buffer's content (the old content remains visible); the SDL2 MicroPython
branch instead recreates a blank buffer (see the counterexample). -/
theorem c6_rotation_rebuild (st : SurfState) (value : Int)
    (hr : st.rot % 180 = 0 ∨ st.rot % 180 = 90)
    (hv : rotationHelper value % 180 = 0 ∨ rotationHelper value % 180 = 90)
    (hn : st.rot % 360 = st.rot)
    (hp : rotationHelper value % 180 ≠ st.rot % 180) :
    (sdl2SetRotation true st value).buf
        = Buffer.copyEx (rotationHelper value - st.rot)
            (decide ((rotationHelper value - st.rot).natAbs ≠ 180)) st.buf
    ∧ Buffer.usesContent st.buf (sdl2SetRotation true st value).buf = true
    ∧ logWidth (sdl2SetRotation true st value) = logHeight st
    ∧ logHeight (sdl2SetRotation true st value) = logWidth st
    ∧ (pgSetRotation st value).buf
        = Buffer.pgRotate (-(rotationHelper value - st.rot)) st.buf
    ∧ Buffer.usesContent st.buf (pgSetRotation st value).buf = true
    ∧ logWidth (pgSetRotation st value) = logHeight st
    ∧ logHeight (pgSetRotation st value) = logWidth st := by
  have hvv : rotationHelper value % 360 = rotationHelper value :=
    Int.emod_emod_of_dvd value (dvd_refl 360)
  have hne : rotationHelper value ≠ st.rot := by
    intro h
    exact hp (by rw [h])
  have hangle : rotationHelper value % 360 - st.rot % 360
      = rotationHelper value - st.rot := by
    rw [hvv, hn]
  have hang0 : rotationHelper value - st.rot ≠ 0 := by
    intro h
    exact hne (by omega)
  have hsdl : sdl2SetRotation true st value
      = { st with
          buf := (Buffer.copyEx (rotationHelper value - st.rot)
            (decide ((rotationHelper value - st.rot).natAbs ≠ 180)) st.buf),
          rot := rotationHelper value,
          devices := updateDevices st.devices (rotationHelper value) } := by
    rw [sdl2SetRotation]
    simp only [if_neg hne, hangle, if_pos hang0, if_pos rfl]
    simp [hang0]
  have hpg : pgSetRotation st value
      = { st with
          buf := (Buffer.pgRotate (-(rotationHelper value - st.rot)) st.buf),
          rot := rotationHelper value,
          devices := updateDevices st.devices (rotationHelper value) } := by
    rw [pgSetRotation]
    simp only [if_neg hne, hangle]
    simp [hang0]
  refine ⟨by rw [hsdl], ?_, ?_, ?_, by rw [hpg], ?_, ?_, ?_⟩
  · rw [hsdl, Buffer.usesContent.eq_def]
    simp [usesContent_self]
  · rw [hsdl]
    rcases hr with h1 | h1 <;> rcases hv with h2 | h2 <;>
      simp only [logWidth, logHeight] <;> split_ifs <;> first | rfl | omega
  · rw [hsdl]
    rcases hr with h1 | h1 <;> rcases hv with h2 | h2 <;>
      simp only [logWidth, logHeight] <;> split_ifs <;> first | rfl | omega
  · rw [hpg, Buffer.usesContent.eq_def]
    simp [usesContent_self]
  · rw [hpg]
    rcases hr with h1 | h1 <;> rcases hv with h2 | h2 <;>
      simp only [logWidth, logHeight] <;> split_ifs <;> first | rfl | omega
  · rw [hpg]
    rcases hr with h1 | h1 <;> rcases hv with h2 | h2 <;>
      simp only [logWidth, logHeight] <;> split_ifs <;> first | rfl | omega

/-- C6 witness: the amended theorem at the 320×240 state rotated from 0° to
90°. -/
theorem c6_rotation_rebuild_witness :
    (sdl2SetRotation true stEx 90).buf
        = Buffer.copyEx (rotationHelper 90 - stEx.rot)
            (decide ((rotationHelper 90 - stEx.rot).natAbs ≠ 180)) stEx.buf
    ∧ Buffer.usesContent stEx.buf (sdl2SetRotation true stEx 90).buf = true
    ∧ logWidth (sdl2SetRotation true stEx 90) = logHeight stEx
    ∧ logHeight (sdl2SetRotation true stEx 90) = logWidth stEx
    ∧ (pgSetRotation stEx 90).buf
        = Buffer.pgRotate (-(rotationHelper 90 - stEx.rot)) stEx.buf
    ∧ Buffer.usesContent stEx.buf (pgSetRotation stEx 90).buf = true
    ∧ logWidth (pgSetRotation stEx 90) = logHeight stEx
    ∧ logHeight (pgSetRotation stEx 90) = logWidth stEx :=
  c6_rotation_rebuild stEx 90 (by decide) (by decide) (by decide) (by decide)

/-- C6 counterexample: on the SDL2 MicroPython branch the same 0° → 90°
parity-altering change replaces the buffer with a freshly created blank
texture that incorporates nothing of the old buffer's content, refuting
"the old buffer is not simply discarded" for every backend/branch. -/
theorem c6_counterexample :
    (sdl2SetRotation false stEx 90).buf = Buffer.tex 240 320
    ∧ Buffer.usesContent stEx.buf (sdl2SetRotation false stEx 90).buf = false
    ∧ (sdl2SetRotation false stEx 90).rot = 90 := by
  decide

/-- C9 (amended): a successful rotation change re-derives the
coordinate-transform entry of every registered touch-type device — its
`rotation` becomes the surface's new rotation — on both backends; devices of
any other type are left untouched. -/
theorem c9_touch_devices_track (isC : Bool) (st : SurfState) (value : Int)
    (hch : rotationHelper value ≠ st.rot) :
    (sdl2SetRotation isC st value).rot = rotationHelper value
    ∧ (∀ d ∈ (sdl2SetRotation isC st value).devices,
        d.type = DevType.touch → d.rot = rotationHelper value)
    ∧ (pgSetRotation st value).rot = rotationHelper value
    ∧ (∀ d ∈ (pgSetRotation st value).devices,
        d.type = DevType.touch → d.rot = rotationHelper value)
    ∧ (∀ d ∈ st.devices, d.type ≠ DevType.touch →
        d ∈ (sdl2SetRotation isC st value).devices
        ∧ d ∈ (pgSetRotation st value).devices) := by
  have hdev : ∀ devs : List Device, ∀ d ∈ updateDevices devs (rotationHelper value),
      d.type = DevType.touch → d.rot = rotationHelper value := by
    intro devs d hd ht
    rcases List.mem_map.mp hd with ⟨d0, hd0, heq⟩
    by_cases h0 : d0.type = DevType.touch
    · rw [← heq]
      simp [h0]
    · exfalso
      rw [← heq] at ht
      simp [h0] at ht
  have hkeep : ∀ devs : List Device, ∀ d ∈ devs, d.type ≠ DevType.touch →
      d ∈ updateDevices devs (rotationHelper value) := by
    intro devs d hd ht
    rw [updateDevices]
    refine List.mem_map.mpr ⟨d, hd, ?_⟩
    simp [ht]
  have hsdl : (sdl2SetRotation isC st value).rot = rotationHelper value
      ∧ (sdl2SetRotation isC st value).devices
        = updateDevices st.devices (rotationHelper value) := by
    rw [sdl2SetRotation]
    simp [hch]
  have hpg : (pgSetRotation st value).rot = rotationHelper value
      ∧ (pgSetRotation st value).devices
        = updateDevices st.devices (rotationHelper value) := by
    rw [pgSetRotation]
    simp [hch]
  refine ⟨hsdl.1, ?_, hpg.1, ?_, ?_⟩
  · rw [hsdl.2]
    exact hdev st.devices
  · rw [hpg.2]
    exact hdev st.devices
  · intro d hd ht
    rw [hsdl.2, hpg.2]
    exact ⟨hkeep st.devices d hd ht, hkeep st.devices d hd ht⟩

/-- C9 witness: the amended theorem at a state holding one touch device,
rotated from 0° to 90°. -/
theorem c9_touch_devices_track_witness :
    (sdl2SetRotation true stExTouch 90).rot = rotationHelper 90
    ∧ (∀ d ∈ (sdl2SetRotation true stExTouch 90).devices,
        d.type = DevType.touch → d.rot = rotationHelper 90)
    ∧ (pgSetRotation stExTouch 90).rot = rotationHelper 90
    ∧ (∀ d ∈ (pgSetRotation stExTouch 90).devices,
        d.type = DevType.touch → d.rot = rotationHelper 90)
    ∧ (∀ d ∈ stExTouch.devices, d.type ≠ DevType.touch →
        d ∈ (sdl2SetRotation true stExTouch 90).devices
        ∧ d ∈ (pgSetRotation stExTouch 90).devices) :=
  c9_touch_devices_track true stExTouch 90 (by decide)

/-- C9 counterexample: rotating a surface holding one registered non-touch
device from 0° to 90° leaves that device's `rotation` at 0 while the
surface's rotation becomes 90 — the setters update touch devices only, so
not every registered device's transform entry is re-derived. -/
theorem c9_counterexample :
    (sdl2SetRotation true stExDev 90).rot = 90
    ∧ (sdl2SetRotation true stExDev 90).devices = [⟨DevType.other, 0⟩]
    ∧ ¬(∀ d ∈ (sdl2SetRotation true stExDev 90).devices,
        d.rot = (sdl2SetRotation true stExDev 90).rot) := by
  decide

/-! ### C3: scroll compositing -/

/-- Row-level effect of the four scroll passes with scroll start address
`tfa + o` (the scroll start address is an absolute buffer row, as on the
emulated LCD controllers): fixed regions map to themselves and the scroll
band splits at `tfa + (H - o)`. -/
theorem renderedSrc_sdlShowPasses (tfa H bfa o y : Nat) (ho : o < H) :
    renderedSrc (sdlShowPasses tfa H bfa (tfa + o)) y
      = if y < tfa then some y
        else if y < tfa + (H - o) then some (tfa + o + (y - tfa))
        else if y < tfa + H then some (y - (H - o))
        else if y < tfa + H + bfa then some y
        else none := by
  by_cases h1 : 0 < tfa <;> by_cases h2 : 0 < bfa <;>
    simp only [renderedSrc, sdlShowPasses, h1, h2, ite_true, ite_false, if_true, if_false,
      List.append_nil, List.nil_append, List.cons_append, List.singleton_append,
      List.foldl_cons, List.foldl_nil] <;>
    split_ifs <;>
    first
      | rfl
      | omega
      | (simp only [Option.some.injEq]; omega)

/-- C3: with top-fixed height `tfa`, scroll-area height `H`, bottom-fixed
height `bfa` and enabled offset `o` into the scroll area (scroll start
address `tfa + o`), compositing renders the four passes in fixed order —
top-fixed native, scroll rows `o..H-1` at `tfa`, scroll rows `0..o-1` below
them, bottom-fixed native — and the pygame passes coincide at unit scale;
row-wise, fixed regions show themselves, display row `tfa + k` shows scroll
row `(o + k) % H`, row `tfa` shows scroll row `o` and the last scroll row
shows `(o + (H-1)) % H`. -/
theorem c3_scroll_compositing (tfa H bfa o : Nat) (ho : o < H) :
    sdlShowPasses tfa H bfa (tfa + o)
      = (if 0 < tfa then [(⟨0, 0, tfa⟩ : CopyPass)] else [])
        ++ [(⟨tfa + o, tfa, H - o⟩ : CopyPass), (⟨tfa, tfa + (H - o), o⟩ : CopyPass)]
        ++ (if 0 < bfa then [(⟨tfa + H, tfa + H, bfa⟩ : CopyPass)] else [])
    ∧ pgShowPasses 1 tfa H bfa (tfa + o) = sdlShowPasses tfa H bfa (tfa + o)
    ∧ (∀ y, y < tfa → renderedSrc (sdlShowPasses tfa H bfa (tfa + o)) y = some y)
    ∧ (∀ k, k < H →
        renderedSrc (sdlShowPasses tfa H bfa (tfa + o)) (tfa + k)
          = some (tfa + (o + k) % H))
    ∧ (∀ y, tfa + H ≤ y → y < tfa + H + bfa →
        renderedSrc (sdlShowPasses tfa H bfa (tfa + o)) y = some y)
    ∧ renderedSrc (sdlShowPasses tfa H bfa (tfa + o)) tfa = some (tfa + o)
    ∧ renderedSrc (sdlShowPasses tfa H bfa (tfa + o)) (tfa + (H - 1))
        = some (tfa + (o + (H - 1)) % H) := by
  have hmain : ∀ k, k < H →
      renderedSrc (sdlShowPasses tfa H bfa (tfa + o)) (tfa + k)
        = some (tfa + (o + k) % H) := by
    intro k hk
    rw [renderedSrc_sdlShowPasses tfa H bfa o (tfa + k) ho, if_neg (by omega)]
    by_cases hk2 : k < H - o
    · rw [if_pos (by omega)]
      have hmod : (o + k) % H = o + k := Nat.mod_eq_of_lt (by omega)
      rw [hmod]
      simp only [Option.some.injEq]
      omega
    · rw [if_neg (by omega), if_pos (by omega)]
      have hmod : (o + k) % H = o + k - H := by
        rw [Nat.mod_eq_sub_mod (by omega)]
        exact Nat.mod_eq_of_lt (by omega)
      rw [hmod]
      simp only [Option.some.injEq]
      omega
  refine ⟨?_, ?_, ?_, hmain, ?_, ?_, hmain (H - 1) (by omega)⟩
  · have e1 : H + tfa - (tfa + o) = H - o := by omega
    have e2 : H - (H - o) = o := by omega
    rw [sdlShowPasses, e1, e2]
  · simp [pgShowPasses, sdlShowPasses, Nat.mul_one]
  · intro y hy
    rw [renderedSrc_sdlShowPasses tfa H bfa o y ho, if_pos hy]
  · intro y h1 h2
    rw [renderedSrc_sdlShowPasses tfa H bfa o y ho,
      if_neg (by omega), if_neg (by omega), if_neg (by omega), if_pos (by omega)]
  · have h := hmain 0 (by omega)
    rw [Nat.add_zero, Nat.add_zero, Nat.mod_eq_of_lt ho] at h
    exact h

/-- C3 witness: the theorem at `tfa = 2`, `H = 3`, `bfa = 2`, offset
`o = 1`. -/
theorem c3_scroll_compositing_witness :
    sdlShowPasses 2 3 2 (2 + 1)
      = (if 0 < 2 then [(⟨0, 0, 2⟩ : CopyPass)] else [])
        ++ [(⟨2 + 1, 2, 3 - 1⟩ : CopyPass), (⟨2, 2 + (3 - 1), 1⟩ : CopyPass)]
        ++ (if 0 < 2 then [(⟨2 + 3, 2 + 3, 2⟩ : CopyPass)] else [])
    ∧ pgShowPasses 1 2 3 2 (2 + 1) = sdlShowPasses 2 3 2 (2 + 1)
    ∧ (∀ y, y < 2 → renderedSrc (sdlShowPasses 2 3 2 (2 + 1)) y = some y)
    ∧ (∀ k, k < 3 →
        renderedSrc (sdlShowPasses 2 3 2 (2 + 1)) (2 + k) = some (2 + (1 + k) % 3))
    ∧ (∀ y, 2 + 3 ≤ y → y < 2 + 3 + 2 →
        renderedSrc (sdlShowPasses 2 3 2 (2 + 1)) y = some y)
    ∧ renderedSrc (sdlShowPasses 2 3 2 (2 + 1)) 2 = some (2 + 1)
    ∧ renderedSrc (sdlShowPasses 2 3 2 (2 + 1)) (2 + (3 - 1))
        = some (2 + (1 + (3 - 1)) % 3) :=
  c3_scroll_compositing 2 3 2 1 (by decide)

end Display
